import Mathlib

/-
Verification of the pynesweeper board engine (src/pynesweeper.py).

The Python program is shallowly embedded below.  The 2D Python lists
`self.cells` and `self.moves` become `List (List Nat)` / `List (List Bool)`,
indexed through total lookup functions with a default (out-of-range reads
never occur on well-formed boards, which mirrors Python's bounds).  The
process-wide random source is made explicit: `random.sample(range(0, n), k)`
becomes a parameter `coords : List Nat` together with the hypotheses that
`random.sample` guarantees (distinct values, the requested length, all drawn
from the given range).  The interactive input loop is modelled per candidate
move: a syntactically validated in-bounds move mutates the board exactly as
lines 104-107 of the source do, and an out-of-range candidate is rejected
with no state change (the source re-prompts), surfaced here as an
`OutOfBounds` error.
-/

set_option maxHeartbeats 1600000

namespace Pynesweeper

/-- Read entry `(x, y)` of a 2D list, with default `d` out of range
(mirrors `g[x][y]` in Python, which never goes out of range here). -/
def get2 (d : α) (g : List (List α)) (x y : Nat) : α :=
  (g.getD x []).getD y d

/-- Write entry `(x, y)` of a 2D list (mirrors `g[x][y] = v`). -/
def set2 (g : List (List α)) (x y : Nat) (v : α) : List (List α) :=
  g.set x ((g.getD x []).set y v)

/-- Increment entry `(x, y)` (mirrors `self.cells[x][y] += 1`). -/
def inc2 (g : List (List Nat)) (x y : Nat) : List (List Nat) :=
  set2 g x y (get2 0 g x y + 1)

/-- Line 26 of the source: `MAX_ADJACENCIES = 8`. -/
def MAX_ADJACENCIES : Nat := 8

/-- The state of `class Board` (lines 32-44).  The rendering-only field
`board_header_str` is omitted: it is derived text with no game state. -/
structure Board where
  side_len : Nat
  num_mines : Nat
  num_cells : Nat
  cells : List (List Nat)
  game_over : Bool
  moves : List (List Bool)
  last_move : Int × Int
  mines : List (Nat × Nat)
  move_ct : Nat
deriving DecidableEq

/-- `Board.__init__` before the call to `gen_board` (lines 32-42). -/
def Board.init (side_len num_mines : Nat) : Board :=
  { side_len := side_len
    num_mines := num_mines
    num_cells := side_len * side_len
    cells := List.replicate side_len (List.replicate side_len 0)
    game_over := false
    moves := List.replicate side_len (List.replicate side_len false)
    last_move := (-1, -1)
    mines := []
    move_ct := 0 }

/-- The adjacency-increment block of the `gen_board` loop body for one
sampled linear coordinate `coord` (lines 61-83), with the source's
`x0`/`xmax`/`y0`/`ymax` border guards. -/
def placeMine (s : Nat) (g : List (List Nat)) (coord : Nat) : List (List Nat) :=
  let x := coord / s
  let y := coord % s
  let g1 :=
    if x ≠ 0 then
      let a := inc2 g (x - 1) y
      let b := if y ≠ 0 then inc2 a (x - 1) (y - 1) else a
      if y ≠ s - 1 then inc2 b (x - 1) (y + 1) else b
    else g
  let g2 :=
    if x ≠ s - 1 then
      let a := inc2 g1 (x + 1) y
      let b := if y ≠ 0 then inc2 a (x + 1) (y - 1) else a
      if y ≠ s - 1 then inc2 b (x + 1) (y + 1) else b
    else g1
  let g3 := if y ≠ 0 then inc2 g2 x (y - 1) else g2
  if y ≠ s - 1 then inc2 g3 x (y + 1) else g3

/-- One iteration of the `for coord in coords` loop of `gen_board`
(lines 60-83): append `[x, y]` to `self.mines` and run the adjacency
increments on `self.cells`. -/
def genStep (s : Nat) (st : List (Nat × Nat) × List (List Nat)) (coord : Nat) :
    List (Nat × Nat) × List (List Nat) :=
  (st.1 ++ [(coord / s, coord % s)], placeMine s st.2 coord)

/-- `Board.gen_board` (lines 56-86).  The call
`random.sample(range(0, self.num_cells - 1), self.num_mines)` is modelled by
the explicit parameter `coords`; theorems quantify over every outcome the
library call can produce.  After the sampling loop, every mine cell is set
to `MAX_ADJACENCIES` (lines 84-86). -/
def Board.gen_board (b : Board) (coords : List Nat) : Board :=
  let st := coords.foldl (genStep b.side_len) (b.mines, b.cells)
  { b with
    mines := st.1
    cells := st.1.foldl (fun g m => set2 g m.1 m.2 MAX_ADJACENCIES) st.2 }

/-- `Board(side_len, num_mines)`: `__init__` ending in `self.gen_board()`
(lines 32-44), with the random sample made explicit. -/
def mkGame (side_len num_mines : Nat) (coords : List Nat) : Board :=
  (Board.init side_len num_mines).gen_board coords

/-- The contract of `random.sample(range(0, n - 1), k)` on its result:
`k` distinct values, each in `[0, n - 1)`. -/
def SampleOK (n k : Nat) (coords : List Nat) : Prop :=
  coords.Nodup ∧ coords.length = k ∧ ∀ c ∈ coords, c < n - 1

instance (n k : Nat) (coords : List Nat) : Decidable (SampleOK n k coords) := by
  unfold SampleOK
  infer_instance

/-- The configuration error of the spec: `main` rejects the configuration
before any `Board` is created (lines 186-196). -/
inductive ConfigError
  | InvalidConfig
deriving DecidableEq

/-- The construction path of `main` (lines 189-198): validate
`side_len`/`num_mines` (both parsed with `isdigit`, hence naturals) and only
then build the `Board`.  An invalid configuration produces no engine. -/
def Construct (side_len num_mines : Nat) (coords : List Nat) :
    Except ConfigError Board :=
  if side_len < 1 ∨ num_mines < 1 then
    Except.error ConfigError.InvalidConfig
  else if num_mines ≥ side_len * side_len then
    Except.error ConfigError.InvalidConfig
  else
    Except.ok (mkGame side_len num_mines coords)

/-- The move error of the spec: a candidate coordinate outside the board is
rejected by the validation loop of `get_user_input` (line 97) and never
mutates the board. -/
inductive MoveError
  | OutOfBounds
deriving DecidableEq

/-- The board mutation of `get_user_input` (lines 88-107) for one candidate
coordinate pair, already converted to 0-based integers as on lines 102-103.
The validation loop on line 97 accepts exactly the letters
`A..chr(side_len+64)` and the numbers `1..side_len`, i.e. exactly
`0 ≤ x < side_len` and `0 ≤ y < side_len` after conversion; any other
candidate is rejected without touching the state.  An accepted move runs
lines 104-107: bump `move_ct` if the cell is fresh, set its `moves` flag,
record `last_move`. -/
def Board.apply_move (b : Board) (x y : Int) : Except MoveError Board :=
  if 0 ≤ x ∧ x < (b.side_len : Int) ∧ 0 ≤ y ∧ y < (b.side_len : Int) then
    let xn := x.toNat
    let yn := y.toNat
    let b1 := if get2 false b.moves xn yn = false then
        { b with move_ct := b.move_ct + 1 }
      else b
    Except.ok { b1 with moves := set2 b1.moves xn yn true, last_move := (x, y) }
  else
    Except.error MoveError.OutOfBounds

/-- `Board.check_state` (lines 109-110). -/
def Board.check_state (b : Board) : Bool :=
  b.game_over

/-- `Board.hit_mine` (lines 112-117): scan `self.mines` for `last_move`. -/
def Board.hit_mine (b : Board) : Bool :=
  b.mines.any (fun m => b.last_move = ((m.1 : Int), (m.2 : Int)))

/-- The state effect of `Board.draw_board` (lines 119-136): set `game_over`
when the last move hit a mine (and is real user input, line 122) or when
`move_ct` reached `num_cells - num_mines`; the rest of the method only
formats text. -/
def Board.draw_board (b : Board) : Board :=
  if b.last_move ≠ ((-1 : Int), (-1 : Int)) ∧ b.hit_mine then
    { b with game_over := true }
  else if b.move_ct = b.num_cells - b.num_mines then
    { b with game_over := true }
  else b

/-- The three-valued game status of the spec. -/
inductive GameStatus
  | InProgress
  | Won
  | Lost
deriving DecidableEq

/-- The status `draw_board` reports after a move: the branch it takes on
lines 122-133 (`Lost` prints GAME OVER, `Won` prints YOU WIN, otherwise the
game is still in progress).  It is derived from the same conditions
`draw_board` tests. -/
def Board.status (b : Board) : GameStatus :=
  if b.last_move ≠ ((-1 : Int), (-1 : Int)) ∧ b.hit_mine then
    GameStatus.Lost
  else if b.move_ct = b.num_cells - b.num_mines then
    GameStatus.Won
  else
    GameStatus.InProgress

/-- One iteration of the game loop of `main` (lines 200-203) for one
candidate coordinate: `get_user_input` then `draw_board`.  A rejected
candidate leaves the board unchanged (the source keeps prompting). -/
def Board.step (b : Board) (x y : Int) : Board :=
  match b.apply_move x y with
  | Except.ok b1 => b1.draw_board
  | Except.error _ => b

/-- Apply a whole sequence of candidate moves. -/
def playMoves (b : Board) (ms : List (Int × Int)) : Board :=
  ms.foldl (fun acc m => acc.step m.1 m.2) b

/-- Whether coordinate pair `p` is one of the board's mines (the test
`hit_mine` performs, applied to an arbitrary coordinate). -/
def mineAt (b : Board) (p : Int × Int) : Bool :=
  b.mines.any (fun m => p = ((m.1 : Int), (m.2 : Int)))

/-- How many positions of an `s`-by-`s` grid of flags are set. -/
def revealedCountAux (s : Nat) (g : List (List Bool)) : Nat :=
  ((Finset.range s ×ˢ Finset.range s).filter
    (fun p => get2 false g p.1 p.2 = true)).card

/-- Number of revealed cells: how many positions of the grid have their
`moves` flag set. -/
def revealedCount (b : Board) : Nat :=
  revealedCountAux b.side_len b.moves

/-- Spec-side neighbourhood relation: `(i, j)` is one of the up-to-8
grid neighbours of `(x, y)` (Chebyshev distance 1, no wrap-around). -/
def adjacentN (x y i j : Nat) : Prop :=
  ¬(x = i ∧ y = j) ∧ i ≤ x + 1 ∧ x ≤ i + 1 ∧ j ≤ y + 1 ∧ y ≤ j + 1

instance (x y i j : Nat) : Decidable (adjacentN x y i j) := by
  unfold adjacentN
  infer_instance

/-- Number of mines in the list that are neighbours of cell `(i, j)`. -/
def mineAdjCount (mines : List (Nat × Nat)) (i j : Nat) : Nat :=
  (mines.filter (fun m => decide (adjacentN m.1 m.2 i j))).length

/-- The in-bounds neighbours of `(x, y)` that `placeMine` increments, in
increment order, with the same border guards. -/
def neighborList (s x y : Nat) : List (Nat × Nat) :=
  (if x ≠ 0 then
      (x - 1, y) ::
        ((if y ≠ 0 then [(x - 1, y - 1)] else []) ++
          (if y ≠ s - 1 then [(x - 1, y + 1)] else []))
    else []) ++
  ((if x ≠ s - 1 then
      (x + 1, y) ::
        ((if y ≠ 0 then [(x + 1, y - 1)] else []) ++
          (if y ≠ s - 1 then [(x + 1, y + 1)] else []))
    else []) ++
  ((if y ≠ 0 then [(x, y - 1)] else []) ++
  (if y ≠ s - 1 then [(x, y + 1)] else [])))

/-- Well-formed `s × s` grid. -/
def WF (s : Nat) (g : List (List α)) : Prop :=
  g.length = s ∧ ∀ r ∈ g, r.length = s

/-- The state invariant maintained by construction and by every applied
move. -/
def GoodState (b : Board) : Prop :=
  b.moves.length = b.side_len ∧
  (∀ r ∈ b.moves, r.length = b.side_len) ∧
  b.move_ct = revealedCount b ∧
  ((∃ m ∈ b.mines, get2 false b.moves m.1 m.2 = true) → b.game_over = true) ∧
  (b.num_cells - b.num_mines ≤ b.move_ct → b.game_over = true) ∧
  b.num_cells = b.side_len * b.side_len ∧
  b.num_mines < b.num_cells

/-- The four cells of the 2-by-2 board, as move coordinates. -/
def cellMoves2 : List (Int × Int) :=
  [(0, 0), (0, 1), (1, 0), (1, 1)]

/-- The three non-mine cells of a 2-by-2 board whose mine was sampled at
linear coordinate `c`. -/
def nonMineMoves (c : Nat) : List (Int × Int) :=
  cellMoves2.filter (fun p => decide (p ≠ (((c / 2 : Nat) : Int), ((c % 2 : Nat) : Int))))

/-! ### Basic 2D-grid lemmas -/

theorem set_own_value {β : Type _} (l : List β) (n : Nat) (a : β)
    (hv : l[n]? = some a ∨ l.length ≤ n) : l.set n a = l := by
  rcases hv with hv | hv
  · apply List.ext_getElem?
    intro m
    rw [List.getElem?_set]
    split
    · next hnm =>
        subst hnm
        have hn : n < l.length := by
          by_contra hc
          rw [List.getElem?_eq_none (Nat.le_of_not_lt hc)] at hv
          exact Option.noConfusion hv
        rw [if_pos hn, hv]
    · rfl
  · exact List.set_eq_of_length_le hv

theorem get2_set2_ne {α : Type _} (d v : α) (g : List (List α)) (x y i j : Nat)
    (h : ¬(x = i ∧ y = j)) : get2 d (set2 g x y v) i j = get2 d g i j := by
  by_cases hx : x = i
  · subst hx
    have hy : y ≠ j := fun e => h ⟨rfl, e⟩
    unfold get2 set2
    by_cases hlen : x < g.length
    · rw [List.getD_eq_getElem?_getD (g.set x _), List.getElem?_set, if_pos rfl,
        if_pos hlen, Option.getD_some, List.getD_eq_getElem?_getD _ j,
        List.getElem?_set_ne hy, ← List.getD_eq_getElem?_getD,
        List.getD_eq_getElem?_getD g x]
    · rw [List.set_eq_of_length_le (Nat.le_of_not_lt hlen)]
  · unfold get2 set2
    rw [List.getD_eq_getElem?_getD (g.set x _), List.getElem?_set_ne hx,
      ← List.getD_eq_getElem?_getD]

theorem get2_set2_eq {α : Type _} (d v : α) (g : List (List α)) (x y : Nat)
    (hx : x < g.length) (hy : y < (g.getD x []).length) :
    get2 d (set2 g x y v) x y = v := by
  unfold get2 set2
  rw [List.getD_eq_getElem?_getD (g.set x _), List.getElem?_set, if_pos rfl, if_pos hx,
    Option.getD_some, List.getD_eq_getElem?_getD, List.getElem?_set, if_pos rfl,
    if_pos hy, Option.getD_some]

theorem set2_self {α : Type _} (d : α) (g : List (List α)) (x y : Nat) (v : α)
    (h : get2 d g x y = v) : set2 g x y v = g := by
  unfold set2
  by_cases hx : x < g.length
  · have hrow : (g.getD x []).set y v = g.getD x [] := by
      apply set_own_value
      by_cases hy : y < (g.getD x []).length
      · left
        rw [List.getElem?_eq_getElem hy]
        unfold get2 at h
        rw [List.getD_eq_getElem _ _ hy] at h
        rw [h]
      · right
        exact Nat.le_of_not_lt hy
    rw [hrow]
    apply set_own_value
    left
    rw [List.getElem?_eq_getElem hx, List.getD_eq_getElem _ _ hx]
  · apply set_own_value
    right
    exact Nat.le_of_not_lt hx

theorem get2_replicate {α : Type _} (d : α) (n k i j : Nat) :
    get2 d (List.replicate n (List.replicate k d)) i j = d := by
  simp only [get2, List.getD_eq_getElem?_getD]
  rw [List.getElem?_replicate]
  split
  · rw [Option.getD_some, List.getElem?_replicate]
    split
    · rfl
    · rfl
  · rfl

theorem WF_set2 {α : Type _} {s : Nat} {g : List (List α)} (h : WF s g)
    (x y : Nat) (v : α) : WF s (set2 g x y v) := by
  by_cases hx : x < g.length
  · refine ⟨ ?_, ?_ ⟩
    · rw [set2, List.length_set]
      exact h.1
    · intro r hr
      rcases List.mem_or_eq_of_mem_set hr with hm | he
      · exact h.2 r hm
      · subst he
        rw [List.length_set, List.getD_eq_getElem _ _ hx]
        exact h.2 _ (List.getElem_mem hx)
  · rw [set2, List.set_eq_of_length_le (Nat.le_of_not_lt hx)]
    exact h

theorem WF_inc2 {s : Nat} {g : List (List Nat)} (h : WF s g) (x y : Nat) :
    WF s (inc2 g x y) :=
  WF_set2 h x y _

theorem WF_replicate {α : Type _} (s : Nat) (d : α) :
    WF s (List.replicate s (List.replicate s d)) := by
  refine ⟨List.length_replicate .., ?_⟩
  intro r hr
  rw [List.eq_of_mem_replicate hr]
  exact List.length_replicate ..

theorem get2_inc2 {s : Nat} {g : List (List Nat)} (hwf : WF s g) (x y i j : Nat)
    (hi : i < s) (hj : j < s) :
    get2 0 (inc2 g x y) i j = get2 0 g i j + (if x = i ∧ y = j then 1 else 0) := by
  by_cases h : x = i ∧ y = j
  · obtain ⟨hx, hy⟩ := h
    subst hx
    subst hy
    rw [if_pos ⟨rfl, rfl⟩]
    unfold inc2
    apply get2_set2_eq
    · rw [hwf.1]
      exact hi
    · have hx' : x < g.length := by
        rw [hwf.1]
        exact hi
      rw [List.getD_eq_getElem _ _ hx', hwf.2 _ (List.getElem_mem hx')]
      exact hj
  · rw [if_neg h, Nat.add_zero]
    exact get2_set2_ne _ _ _ _ _ _ _ h

/-! ### Mine placement: one sampled coordinate -/

theorem WF_foldl_inc2 {s : Nat} (ps : List (Nat × Nat)) {g : List (List Nat)}
    (hwf : WF s g) : WF s (ps.foldl (fun h p => inc2 h p.1 p.2) g) := by
  induction ps generalizing g with
  | nil => exact hwf
  | cons p rest ih =>
    rw [List.foldl_cons]
    exact ih (WF_inc2 hwf p.1 p.2)

theorem foldl_inc2_get2 {s : Nat} (ps : List (Nat × Nat)) {g : List (List Nat)}
    (hwf : WF s g) (i j : Nat) (hi : i < s) (hj : j < s) :
    get2 0 (ps.foldl (fun h p => inc2 h p.1 p.2) g) i j
      = get2 0 g i j + ps.count (i, j) := by
  induction ps generalizing g with
  | nil => simp
  | cons p rest ih =>
    rcases p with ⟨a, b⟩
    rw [List.foldl_cons, ih (WF_inc2 hwf a b), get2_inc2 hwf a b i j hi hj,
      List.count_cons]
    simp only [beq_iff_eq, Prod.mk.injEq]
    split_ifs <;> omega

theorem placeMine_eq_foldl (s : Nat) (g : List (List Nat)) (coord : Nat) :
    placeMine s g coord
      = (neighborList s (coord / s) (coord % s)).foldl
          (fun h p => inc2 h p.1 p.2) g := by
  simp only [placeMine, neighborList]
  split_ifs <;> rfl

theorem count_neighborList (s x y i j : Nat) (hx : x < s) (hy : y < s)
    (hi : i < s) (hj : j < s) :
    (neighborList s x y).count (i, j) = if adjacentN x y i j then 1 else 0 := by
  unfold neighborList adjacentN
  simp only [List.count_append]
  split_ifs <;>
    simp only [List.count_append, List.count_cons, List.count_nil,
      List.count_singleton, beq_iff_eq, Prod.mk.injEq] <;>
    (try split_ifs) <;> omega

theorem WF_placeMine {s : Nat} {g : List (List Nat)} (hwf : WF s g) (c : Nat) :
    WF s (placeMine s g c) := by
  rw [placeMine_eq_foldl]
  exact WF_foldl_inc2 _ hwf

theorem get2_placeMine {s : Nat} {g : List (List Nat)} (hwf : WF s g) {c : Nat}
    (hc : c < s * s) (i j : Nat) (hi : i < s) (hj : j < s) :
    get2 0 (placeMine s g c) i j
      = get2 0 g i j + (if adjacentN (c / s) (c % s) i j then 1 else 0) := by
  have hs : 0 < s := by
    rcases Nat.eq_zero_or_pos s with h0 | h0
    · subst h0
      omega
    · exact h0
  rw [placeMine_eq_foldl, foldl_inc2_get2 _ hwf i j hi hj,
    count_neighborList s _ _ i j ((Nat.div_lt_iff_lt_mul hs).mpr hc)
      (Nat.mod_lt _ hs) hi hj]

theorem WF_foldl_placeMine {s : Nat} (coords : List Nat) {g : List (List Nat)}
    (hwf : WF s g) : WF s (coords.foldl (placeMine s) g) := by
  induction coords generalizing g with
  | nil => exact hwf
  | cons c rest ih =>
    rw [List.foldl_cons]
    exact ih (WF_placeMine hwf c)

theorem get2_foldl_placeMine {s : Nat} (coords : List Nat) {g : List (List Nat)}
    (hwf : WF s g) (hbd : ∀ c ∈ coords, c < s * s) (i j : Nat)
    (hi : i < s) (hj : j < s) :
    get2 0 (coords.foldl (placeMine s) g) i j
      = get2 0 g i j
        + coords.countP (fun c => decide (adjacentN (c / s) (c % s) i j)) := by
  induction coords generalizing g with
  | nil => simp
  | cons c rest ih =>
    rw [List.foldl_cons, ih (WF_placeMine hwf c) (fun d hd => hbd d (List.mem_cons_of_mem c hd)),
      get2_placeMine hwf (hbd c (List.mem_cons_self c rest)) i j hi hj,
      List.countP_cons]
    by_cases h : adjacentN (c / s) (c % s) i j
    · simp [h]
      omega
    · simp [h]

theorem get2_foldl_setMine_not_mem (ms : List (Nat × Nat)) (g : List (List Nat))
    (i j : Nat) (h : (i, j) ∉ ms) :
    get2 0 (ms.foldl (fun h m => set2 h m.1 m.2 MAX_ADJACENCIES) g) i j
      = get2 0 g i j := by
  induction ms generalizing g with
  | nil => rfl
  | cons m rest ih =>
    rw [List.foldl_cons, ih _ (fun hm => h (List.mem_cons_of_mem m hm))]
    apply get2_set2_ne
    intro he
    apply h
    have : m = (i, j) := by
      rcases m with ⟨a, b⟩
      simp only [Prod.mk.injEq]
      exact he
    rw [this]
    exact List.mem_cons_self _ _

theorem genStep_foldl (s : Nat) (coords : List Nat) (ms : List (Nat × Nat))
    (g : List (List Nat)) :
    coords.foldl (genStep s) (ms, g)
      = (ms ++ coords.map (fun c => (c / s, c % s)),
          coords.foldl (placeMine s) g) := by
  induction coords generalizing ms g with
  | nil => simp
  | cons c rest ih =>
    have hg : genStep s (ms, g) c = (ms ++ [(c / s, c % s)], placeMine s g c) := rfl
    rw [List.foldl_cons, List.foldl_cons, hg, ih]
    simp

theorem gen_board_mines (b : Board) (coords : List Nat) :
    (b.gen_board coords).mines
      = b.mines ++ coords.map (fun c => (c / b.side_len, c % b.side_len)) := by
  unfold Board.gen_board
  rw [genStep_foldl]

theorem gen_board_cells (b : Board) (coords : List Nat) :
    (b.gen_board coords).cells
      = (b.mines ++ coords.map (fun c => (c / b.side_len, c % b.side_len))).foldl
          (fun g m => set2 g m.1 m.2 MAX_ADJACENCIES)
          (coords.foldl (placeMine b.side_len) b.cells) := by
  unfold Board.gen_board
  rw [genStep_foldl]

theorem gen_board_side_len (b : Board) (coords : List Nat) :
    (b.gen_board coords).side_len = b.side_len := rfl

theorem gen_board_num_mines (b : Board) (coords : List Nat) :
    (b.gen_board coords).num_mines = b.num_mines := rfl

theorem gen_board_num_cells (b : Board) (coords : List Nat) :
    (b.gen_board coords).num_cells = b.num_cells := rfl

theorem gen_board_moves (b : Board) (coords : List Nat) :
    (b.gen_board coords).moves = b.moves := rfl

theorem gen_board_move_ct (b : Board) (coords : List Nat) :
    (b.gen_board coords).move_ct = b.move_ct := rfl

theorem gen_board_game_over (b : Board) (coords : List Nat) :
    (b.gen_board coords).game_over = b.game_over := rfl

theorem gen_board_last_move (b : Board) (coords : List Nat) :
    (b.gen_board coords).last_move = b.last_move := rfl

/-- The linear-to-2D coordinate map of `gen_board` is injective. -/
theorem coord_pair_injective (s : Nat) :
    Function.Injective (fun c : Nat => (c / s, c % s)) := by
  intro a b hab
  simp only [Prod.mk.injEq] at hab
  have ha := Nat.div_add_mod a s
  have hb := Nat.div_add_mod b s
  rw [hab.1, hab.2] at ha
  omega

/-! ### Moves: apply_move, draw_board, step -/

theorem apply_move_oob {b : Board} {x y : Int}
    (h : ¬(0 ≤ x ∧ x < (b.side_len : Int) ∧ 0 ≤ y ∧ y < (b.side_len : Int))) :
    b.apply_move x y = Except.error MoveError.OutOfBounds := by
  unfold Board.apply_move
  rw [if_neg h]

theorem apply_move_fresh {b : Board} {x y : Int}
    (h : 0 ≤ x ∧ x < (b.side_len : Int) ∧ 0 ≤ y ∧ y < (b.side_len : Int))
    (hm : get2 false b.moves x.toNat y.toNat = false) :
    b.apply_move x y
      = Except.ok { b with
          move_ct := b.move_ct + 1
          moves := set2 b.moves x.toNat y.toNat true
          last_move := (x, y) } := by
  unfold Board.apply_move
  rw [if_pos h]
  dsimp only
  rw [if_pos hm]

theorem apply_move_seen {b : Board} {x y : Int}
    (h : 0 ≤ x ∧ x < (b.side_len : Int) ∧ 0 ≤ y ∧ y < (b.side_len : Int))
    (hm : get2 false b.moves x.toNat y.toNat = true) :
    b.apply_move x y
      = Except.ok { b with
          moves := set2 b.moves x.toNat y.toNat true
          last_move := (x, y) } := by
  unfold Board.apply_move
  rw [if_pos h]
  dsimp only
  rw [if_neg (by rw [hm]; exact fun hc => Bool.noConfusion hc)]

theorem step_oob {b : Board} {x y : Int}
    (h : ¬(0 ≤ x ∧ x < (b.side_len : Int) ∧ 0 ≤ y ∧ y < (b.side_len : Int))) :
    b.step x y = b := by
  unfold Board.step
  rw [apply_move_oob h]

theorem step_fresh {b : Board} {x y : Int}
    (h : 0 ≤ x ∧ x < (b.side_len : Int) ∧ 0 ≤ y ∧ y < (b.side_len : Int))
    (hm : get2 false b.moves x.toNat y.toNat = false) :
    b.step x y
      = Board.draw_board { b with
          move_ct := b.move_ct + 1
          moves := set2 b.moves x.toNat y.toNat true
          last_move := (x, y) } := by
  unfold Board.step
  rw [apply_move_fresh h hm]

theorem step_seen {b : Board} {x y : Int}
    (h : 0 ≤ x ∧ x < (b.side_len : Int) ∧ 0 ≤ y ∧ y < (b.side_len : Int))
    (hm : get2 false b.moves x.toNat y.toNat = true) :
    b.step x y
      = Board.draw_board { b with
          moves := set2 b.moves x.toNat y.toNat true
          last_move := (x, y) } := by
  unfold Board.step
  rw [apply_move_seen h hm]

theorem draw_board_cases (b : Board) :
    b.draw_board = b ∨ b.draw_board = { b with game_over := true } := by
  unfold Board.draw_board
  split_ifs
  · right
    rfl
  · right
    rfl
  · left
    rfl

theorem draw_board_side_len (b : Board) : b.draw_board.side_len = b.side_len := by
  rcases draw_board_cases b with h | h
  · rw [h]
  · rw [h]

theorem draw_board_num_mines (b : Board) : b.draw_board.num_mines = b.num_mines := by
  rcases draw_board_cases b with h | h
  · rw [h]
  · rw [h]

theorem draw_board_num_cells (b : Board) : b.draw_board.num_cells = b.num_cells := by
  rcases draw_board_cases b with h | h
  · rw [h]
  · rw [h]

theorem draw_board_cells (b : Board) : b.draw_board.cells = b.cells := by
  rcases draw_board_cases b with h | h
  · rw [h]
  · rw [h]

theorem draw_board_mines (b : Board) : b.draw_board.mines = b.mines := by
  rcases draw_board_cases b with h | h
  · rw [h]
  · rw [h]

theorem draw_board_moves (b : Board) : b.draw_board.moves = b.moves := by
  rcases draw_board_cases b with h | h
  · rw [h]
  · rw [h]

theorem draw_board_move_ct (b : Board) : b.draw_board.move_ct = b.move_ct := by
  rcases draw_board_cases b with h | h
  · rw [h]
  · rw [h]

theorem draw_board_last_move (b : Board) : b.draw_board.last_move = b.last_move := by
  rcases draw_board_cases b with h | h
  · rw [h]
  · rw [h]

theorem status_draw_board (b : Board) : b.draw_board.status = b.status := by
  rcases draw_board_cases b with h | h
  · rw [h]
  · rw [h]
    rfl

theorem draw_board_game_over_true {b : Board} (h : b.game_over = true) :
    b.draw_board.game_over = true := by
  rcases draw_board_cases b with hd | hd
  · rw [hd]
    exact h
  · rw [hd]

theorem draw_board_game_over_of_lost {b : Board}
    (h : b.last_move ≠ ((-1 : Int), (-1 : Int)) ∧ b.hit_mine) :
    b.draw_board.game_over = true := by
  unfold Board.draw_board
  rw [if_pos h]

theorem draw_board_game_over_of_won {b : Board}
    (h : b.move_ct = b.num_cells - b.num_mines) :
    b.draw_board.game_over = true := by
  unfold Board.draw_board
  split_ifs with h1
  · rfl
  · rfl

/-! ### Counting revealed cells -/

theorem revealedCountAux_eq_zero {s : Nat} {g : List (List Bool)}
    (h : ∀ i j, i < s → j < s → get2 false g i j = false) :
    revealedCountAux s g = 0 := by
  unfold revealedCountAux
  rw [Finset.card_eq_zero, Finset.filter_eq_empty_iff]
  intro p hp
  rw [Finset.mem_product, Finset.mem_range, Finset.mem_range] at hp
  rw [h p.1 p.2 hp.1 hp.2]
  exact fun hc => Bool.noConfusion hc

theorem revealedCountAux_set_fresh {s : Nat} {g : List (List Bool)} {x y : Nat}
    (hx : x < s) (hy : y < s)
    (hlen : g.length = s)
    (hrow : ∀ r ∈ g, r.length = s)
    (hm : get2 false g x y = false) :
    revealedCountAux s (set2 g x y true) = revealedCountAux s g + 1 := by
  have hget : ∀ i j : Nat,
      get2 false (set2 g x y true) i j
        = if x = i ∧ y = j then true else get2 false g i j := by
    intro i j
    by_cases hij : x = i ∧ y = j
    · rw [if_pos hij, ← hij.1, ← hij.2]
      apply get2_set2_eq
      · rw [hlen]
        exact hx
      · have hx' : x < g.length := by
          rw [hlen]
          exact hx
        rw [List.getD_eq_getElem _ _ hx', hrow _ (List.getElem_mem hx')]
        exact hy
    · rw [if_neg hij]
      exact get2_set2_ne _ _ _ _ _ _ _ hij
  unfold revealedCountAux
  have hfe : ((Finset.range s ×ˢ Finset.range s).filter
        (fun p => get2 false (set2 g x y true) p.1 p.2 = true))
      = insert (x, y)
          ((Finset.range s ×ˢ Finset.range s).filter
            (fun p => get2 false g p.1 p.2 = true)) := by
    ext q
    rw [Finset.mem_insert, Finset.mem_filter, Finset.mem_filter]
    constructor
    · rintro ⟨hq, hv⟩
      rw [hget q.1 q.2] at hv
      by_cases hqe : x = q.1 ∧ y = q.2
      · left
        rcases q with ⟨q1, q2⟩
        rw [Prod.mk.injEq]
        exact ⟨hqe.1.symm, hqe.2.symm⟩
      · right
        rw [if_neg hqe] at hv
        exact ⟨hq, hv⟩
    · rintro (hq | ⟨hq, hv⟩)
      · subst hq
        refine ⟨?_, ?_⟩
        · rw [Finset.mem_product, Finset.mem_range, Finset.mem_range]
          exact ⟨hx, hy⟩
        · rw [hget x y, if_pos ⟨rfl, rfl⟩]
      · refine ⟨hq, ?_⟩
        rw [hget q.1 q.2]
        split_ifs with hqe
        · rfl
        · exact hv
  rw [hfe, Finset.card_insert_of_not_mem]
  rw [Finset.mem_filter]
  rintro ⟨hq, hv⟩
  rw [hm] at hv
  exact Bool.noConfusion hv

theorem revealedCountAux_le (s : Nat) (g : List (List Bool)) :
    revealedCountAux s g ≤ s * s := by
  unfold revealedCountAux
  calc ((Finset.range s ×ˢ Finset.range s).filter
        (fun p => get2 false g p.1 p.2 = true)).card
      ≤ (Finset.range s ×ˢ Finset.range s).card :=
        Finset.card_filter_le _ _
    _ = s * s := by
        rw [Finset.card_product]
        simp

theorem revealedCount_draw_board (b : Board) :
    revealedCount b.draw_board = revealedCount b := by
  rcases draw_board_cases b with h | h
  · rw [h]
  · rw [h]
    rfl

/-! ### The reachable-state invariant -/

theorem bool_eq_true_of_ne_false {b : Bool} (h : ¬b = false) : b = true := by
  cases b
  · exact absurd rfl h
  · rfl

theorem goodState_mkGame (s nm : Nat) (hnm : nm < s * s) (coords : List Nat) :
    GoodState (mkGame s nm coords) := by
  refine ⟨?_, ?_, ?_, ?_, ?_, ?_, ?_⟩
  · exact List.length_replicate s _
  · intro r hr
    have hr' : r ∈ List.replicate s (List.replicate s false) := hr
    rw [List.eq_of_mem_replicate hr']
    exact List.length_replicate s _
  · exact (revealedCountAux_eq_zero (fun i j hi hj =>
      get2_replicate false s s i j)).symm
  · rintro ⟨m, hmm, hrev⟩
    have hz : (true : Bool) = false :=
      hrev.symm.trans (get2_replicate false s s m.1 m.2)
    exact Bool.noConfusion hz
  · intro h
    have h' : s * s - nm ≤ 0 := h
    exact absurd h' (by omega)
  · rfl
  · exact hnm

theorem goodState_step {b : Board} (hb : GoodState b) (x y : Int) :
    GoodState (b.step x y) := by
  obtain ⟨hml, hmr, hct, hIa, hIb, hnc, hnm⟩ := hb
  by_cases hbnd : 0 ≤ x ∧ x < (b.side_len : Int) ∧ 0 ≤ y ∧ y < (b.side_len : Int)
  · have hxn : x.toNat < b.side_len := by omega
    have hyn : y.toNat < b.side_len := by omega
    by_cases hm : get2 false b.moves x.toNat y.toNat = false
    · rw [step_fresh hbnd hm]
      refine ⟨?_, ?_, ?_, ?_, ?_, ?_, ?_⟩
      · rw [draw_board_moves, draw_board_side_len]
        exact (WF_set2 (s := b.side_len) ⟨hml, hmr⟩ x.toNat y.toNat true).1
      · rw [draw_board_moves, draw_board_side_len]
        exact (WF_set2 (s := b.side_len) ⟨hml, hmr⟩ x.toNat y.toNat true).2
      · rw [draw_board_move_ct]
        show b.move_ct + 1 = revealedCount _
        rw [revealedCount_draw_board]
        show b.move_ct + 1
          = revealedCountAux b.side_len (set2 b.moves x.toNat y.toNat true)
        rw [revealedCountAux_set_fresh hxn hyn hml hmr hm]
        unfold revealedCount at hct
        rw [hct]
      · rw [draw_board_mines, draw_board_moves]
        rintro ⟨m, hmm, hrev⟩
        by_cases hme : x.toNat = m.1 ∧ y.toNat = m.2
        · apply draw_board_game_over_of_lost
          constructor
          · show (x, y) ≠ ((-1 : Int), (-1 : Int))
            intro he
            rw [Prod.mk.injEq] at he
            omega
          · show Board.hit_mine _ = true
            unfold Board.hit_mine
            rw [List.any_eq_true]
            refine ⟨m, hmm, ?_⟩
            have hx1 : x = (m.1 : Int) := by omega
            have hy1 : y = (m.2 : Int) := by omega
            show decide ((x, y) = ((m.1 : Int), (m.2 : Int))) = true
            rw [decide_eq_true_eq, hx1, hy1]
        · apply draw_board_game_over_true
          show b.game_over = true
          apply hIa
          refine ⟨m, hmm, ?_⟩
          rw [← get2_set2_ne false true b.moves x.toNat y.toNat m.1 m.2 hme]
          exact hrev
      · rw [draw_board_move_ct, draw_board_num_cells, draw_board_num_mines]
        intro hle
        have hle' : b.num_cells - b.num_mines ≤ b.move_ct + 1 := hle
        rcases Nat.lt_or_ge b.move_ct (b.num_cells - b.num_mines) with hlt | hge
        · apply draw_board_game_over_of_won
          show b.move_ct + 1 = b.num_cells - b.num_mines
          omega
        · exact draw_board_game_over_true (hIb hge)
      · rw [draw_board_num_cells, draw_board_side_len]
        exact hnc
      · rw [draw_board_num_mines, draw_board_num_cells]
        exact hnm
    · have hm' : get2 false b.moves x.toNat y.toNat = true :=
        bool_eq_true_of_ne_false hm
      rw [step_seen hbnd hm', set2_self false b.moves x.toNat y.toNat true hm']
      refine ⟨?_, ?_, ?_, ?_, ?_, ?_, ?_⟩
      · rw [draw_board_moves, draw_board_side_len]
        exact hml
      · rw [draw_board_moves, draw_board_side_len]
        exact hmr
      · rw [draw_board_move_ct, revealedCount_draw_board]
        exact hct
      · rw [draw_board_mines, draw_board_moves]
        intro hex
        exact draw_board_game_over_true (hIa hex)
      · rw [draw_board_move_ct, draw_board_num_cells, draw_board_num_mines]
        intro hle
        exact draw_board_game_over_true (hIb hle)
      · rw [draw_board_num_cells, draw_board_side_len]
        exact hnc
      · rw [draw_board_num_mines, draw_board_num_cells]
        exact hnm
  · rw [step_oob hbnd]
    exact ⟨hml, hmr, hct, hIa, hIb, hnc, hnm⟩

theorem goodState_playMoves {b : Board} (hb : GoodState b)
    (ms : List (Int × Int)) : GoodState (playMoves b ms) := by
  induction ms generalizing b with
  | nil => exact hb
  | cons m rest ih => exact ih (goodState_step hb m.1 m.2)

/-! ### Fields that moves never change -/

theorem step_fields (b : Board) (x y : Int) :
    (b.step x y).side_len = b.side_len ∧
    (b.step x y).num_mines = b.num_mines ∧
    (b.step x y).num_cells = b.num_cells ∧
    (b.step x y).mines = b.mines ∧
    (b.step x y).cells = b.cells ∧
    b.move_ct ≤ (b.step x y).move_ct := by
  by_cases hbnd : 0 ≤ x ∧ x < (b.side_len : Int) ∧ 0 ≤ y ∧ y < (b.side_len : Int)
  · by_cases hm : get2 false b.moves x.toNat y.toNat = false
    · rw [step_fresh hbnd hm]
      rw [draw_board_side_len, draw_board_num_mines, draw_board_num_cells,
        draw_board_mines, draw_board_cells, draw_board_move_ct]
      exact ⟨rfl, rfl, rfl, rfl, rfl, Nat.le_succ _⟩
    · rw [step_seen hbnd (bool_eq_true_of_ne_false hm)]
      rw [draw_board_side_len, draw_board_num_mines, draw_board_num_cells,
        draw_board_mines, draw_board_cells, draw_board_move_ct]
      exact ⟨rfl, rfl, rfl, rfl, rfl, Nat.le_refl _⟩
  · rw [step_oob hbnd]
    exact ⟨rfl, rfl, rfl, rfl, rfl, Nat.le_refl _⟩

theorem step_game_over_mono {b : Board} (h : b.game_over = true) (x y : Int) :
    (b.step x y).game_over = true := by
  by_cases hbnd : 0 ≤ x ∧ x < (b.side_len : Int) ∧ 0 ≤ y ∧ y < (b.side_len : Int)
  · by_cases hm : get2 false b.moves x.toNat y.toNat = false
    · rw [step_fresh hbnd hm]
      exact draw_board_game_over_true h
    · rw [step_seen hbnd (bool_eq_true_of_ne_false hm)]
      exact draw_board_game_over_true h
  · rw [step_oob hbnd]
    exact h

theorem playMoves_fields (b : Board) (ms : List (Int × Int)) :
    (playMoves b ms).side_len = b.side_len ∧
    (playMoves b ms).num_mines = b.num_mines ∧
    (playMoves b ms).num_cells = b.num_cells ∧
    (playMoves b ms).mines = b.mines ∧
    (playMoves b ms).cells = b.cells ∧
    b.move_ct ≤ (playMoves b ms).move_ct := by
  induction ms generalizing b with
  | nil => exact ⟨rfl, rfl, rfl, rfl, rfl, Nat.le_refl _⟩
  | cons m rest ih =>
    have hstep := step_fields b m.1 m.2
    have hrest := ih (b.step m.1 m.2)
    have hply : playMoves b (m :: rest) = playMoves (b.step m.1 m.2) rest := rfl
    rw [hply]
    refine ⟨?_, ?_, ?_, ?_, ?_, ?_⟩
    · rw [hrest.1, hstep.1]
    · rw [hrest.2.1, hstep.2.1]
    · rw [hrest.2.2.1, hstep.2.2.1]
    · rw [hrest.2.2.2.1, hstep.2.2.2.1]
    · rw [hrest.2.2.2.2.1, hstep.2.2.2.2.1]
    · exact Nat.le_trans hstep.2.2.2.2.2 hrest.2.2.2.2.2

theorem playMoves_game_over_mono {b : Board} (h : b.game_over = true)
    (ms : List (Int × Int)) : (playMoves b ms).game_over = true := by
  induction ms generalizing b with
  | nil => exact h
  | cons m rest ih => exact ih (step_game_over_mono h m.1 m.2)

/-! ### The status reported after an accepted move -/

theorem mineAt_mem {b : Board} {x y : Int} (hx : 0 ≤ x) (hy : 0 ≤ y)
    (h : mineAt b (x, y) = true) : (x.toNat, y.toNat) ∈ b.mines := by
  unfold mineAt at h
  rw [List.any_eq_true] at h
  obtain ⟨m, hmm, hdec⟩ := h
  rw [decide_eq_true_eq, Prod.mk.injEq] at hdec
  have h1 : x.toNat = m.1 := by omega
  have h2 : y.toNat = m.2 := by omega
  rw [h1, h2]
  exact hmm

theorem status_step {b : Board} {x y : Int}
    (hbnd : 0 ≤ x ∧ x < (b.side_len : Int) ∧ 0 ≤ y ∧ y < (b.side_len : Int)) :
    (b.step x y).status
      = if mineAt b (x, y) = true then GameStatus.Lost
        else if (b.step x y).move_ct = b.num_cells - b.num_mines then GameStatus.Won
        else GameStatus.InProgress := by
  have hne : ((x, y) : Int × Int) ≠ ((-1 : Int), (-1 : Int)) := by
    intro he
    rw [Prod.mk.injEq] at he
    omega
  by_cases hm : get2 false b.moves x.toNat y.toNat = false
  · rw [step_fresh hbnd hm, status_draw_board, draw_board_move_ct]
    show (if ((x, y) : Int × Int) ≠ ((-1 : Int), (-1 : Int)) ∧ mineAt b (x, y) = true
        then GameStatus.Lost
        else if b.move_ct + 1 = b.num_cells - b.num_mines then GameStatus.Won
        else GameStatus.InProgress) = _
    by_cases hmine : mineAt b (x, y) = true
    · rw [if_pos ⟨hne, hmine⟩, if_pos hmine]
    · rw [if_neg (fun hc => hmine hc.2), if_neg hmine]
  · rw [step_seen hbnd (bool_eq_true_of_ne_false hm), status_draw_board,
      draw_board_move_ct]
    show (if ((x, y) : Int × Int) ≠ ((-1 : Int), (-1 : Int)) ∧ mineAt b (x, y) = true
        then GameStatus.Lost
        else if b.move_ct = b.num_cells - b.num_mines then GameStatus.Won
        else GameStatus.InProgress) = _
    by_cases hmine : mineAt b (x, y) = true
    · rw [if_pos ⟨hne, hmine⟩, if_pos hmine]
    · rw [if_neg (fun hc => hmine hc.2), if_neg hmine]

/-- A second move on an already revealed cell of a reachable board changes
only the recorded last move. -/
theorem step_on_revealed {b : Board} (hb : GoodState b) {x y : Int}
    (hbnd : 0 ≤ x ∧ x < (b.side_len : Int) ∧ 0 ≤ y ∧ y < (b.side_len : Int))
    (hm : get2 false b.moves x.toNat y.toNat = true) :
    b.step x y = { b with last_move := (x, y) } := by
  obtain ⟨hml, hmr, hct, hIa, hIb, hnc, hnm⟩ := hb
  rw [step_seen hbnd hm, set2_self false b.moves x.toNat y.toNat true hm]
  unfold Board.draw_board
  split_ifs with h1 h2
  · have hgo : b.game_over = true := by
      apply hIa
      have hhit : mineAt b (x, y) = true := h1.2
      refine ⟨(x.toNat, y.toNat), mineAt_mem (by omega) (by omega) hhit, hm⟩
    rw [← hgo]
  · have hgo : b.game_over = true := by
      apply hIb
      have h2' : b.move_ct = b.num_cells - b.num_mines := h2
      omega
    rw [← hgo]
  · rfl

theorem bool_eq_false_of_ne_true {b : Bool} (h : ¬b = true) : b = false := by
  cases b
  · rfl
  · exact absurd rfl h

/-! ### The generated board of a fresh game -/

theorem mkGame_mines (s nm : Nat) (coords : List Nat) :
    (mkGame s nm coords).mines = coords.map (fun c => (c / s, c % s)) := by
  unfold mkGame
  rw [gen_board_mines]
  show ([] : List (Nat × Nat)) ++ coords.map (fun c => (c / s, c % s)) = _
  rw [List.nil_append]

theorem mkGame_cells_not_mine (s nm : Nat) (coords : List Nat)
    (hbd : ∀ c ∈ coords, c < s * s) (i j : Nat) (hi : i < s) (hj : j < s)
    (hnotm : (i, j) ∉ (mkGame s nm coords).mines) :
    get2 0 (mkGame s nm coords).cells i j
      = mineAdjCount (mkGame s nm coords).mines i j := by
  rw [mkGame_mines] at hnotm
  rw [mkGame_mines]
  unfold mkGame
  rw [gen_board_cells]
  show get2 0 ((([] : List (Nat × Nat)) ++ coords.map (fun c => (c / s, c % s))).foldl
      (fun g m => set2 g m.1 m.2 MAX_ADJACENCIES)
      (coords.foldl (placeMine s) (List.replicate s (List.replicate s 0)))) i j = _
  rw [List.nil_append,
    get2_foldl_setMine_not_mem _ _ _ _ hnotm,
    get2_foldl_placeMine coords (WF_replicate s 0) hbd i j hi hj,
    get2_replicate, Nat.zero_add]
  unfold mineAdjCount
  rw [← List.countP_eq_length_filter, List.countP_map]
  rfl

/-- Two consecutive moves on the same fresh in-bounds cell bump the move
count exactly once. -/
theorem step_twice_fresh {b : Board}
    (hml : b.moves.length = b.side_len)
    (hmr : ∀ r ∈ b.moves, r.length = b.side_len) {x y : Int}
    (hbnd : 0 ≤ x ∧ x < (b.side_len : Int) ∧ 0 ≤ y ∧ y < (b.side_len : Int))
    (hm : get2 false b.moves x.toNat y.toNat = false) :
    ((b.step x y).step x y).move_ct = b.move_ct + 1 := by
  have hxl : x.toNat < b.moves.length := by
    rw [hml]
    omega
  rw [step_fresh hbnd hm]
  have hm2 : get2 false (Board.draw_board { b with
      move_ct := b.move_ct + 1
      moves := set2 b.moves x.toNat y.toNat true
      last_move := (x, y) }).moves x.toNat y.toNat = true := by
    rw [draw_board_moves]
    apply get2_set2_eq
    · exact hxl
    · rw [List.getD_eq_getElem _ _ hxl, hmr _ (List.getElem_mem hxl)]
      omega
  have hbnd2 : 0 ≤ x ∧ x < ((Board.draw_board { b with
        move_ct := b.move_ct + 1
        moves := set2 b.moves x.toNat y.toNat true
        last_move := (x, y) }).side_len : Int) ∧ 0 ≤ y ∧
      y < ((Board.draw_board { b with
        move_ct := b.move_ct + 1
        moves := set2 b.moves x.toNat y.toNat true
        last_move := (x, y) }).side_len : Int) := by
    rw [draw_board_side_len]
    exact hbnd
  rw [step_seen hbnd2 hm2]
  show (Board.draw_board _).move_ct = b.move_ct + 1
  rw [draw_board_move_ct]
  show (Board.draw_board _).move_ct = b.move_ct + 1
  rw [draw_board_move_ct]

/-! ### Claim theorems -/

/-- C1: for every valid configuration and every outcome of the random mine
selection, construction yields exactly `num_mines` distinct in-bounds mine
cells, and every non-mine cell stores the number of mine cells among its
up-to-8 in-bounds neighbours (no wrap-around); in particular on a 3-by-3
board with its single mine at `(0,0)`, cells `(0,1)`, `(1,0)`, `(1,1)` hold
`1` and every other non-mine cell holds `0`. -/
theorem C1_adjacency_counts (s nm : Nat) (coords : List Nat)
    (hs : 1 ≤ s) (hsamp : SampleOK (s * s) nm coords) :
    (mkGame s nm coords).mines.length = nm ∧
    (mkGame s nm coords).mines.Nodup ∧
    (∀ m ∈ (mkGame s nm coords).mines, m.1 < s ∧ m.2 < s) ∧
    (∀ i j, i < s → j < s → (i, j) ∉ (mkGame s nm coords).mines →
      get2 0 (mkGame s nm coords).cells i j
        = mineAdjCount (mkGame s nm coords).mines i j) ∧
    ((mkGame 3 1 [0]).mines = [(0, 0)] ∧
      get2 0 (mkGame 3 1 [0]).cells 0 1 = 1 ∧
      get2 0 (mkGame 3 1 [0]).cells 1 0 = 1 ∧
      get2 0 (mkGame 3 1 [0]).cells 1 1 = 1 ∧
      get2 0 (mkGame 3 1 [0]).cells 0 2 = 0 ∧
      get2 0 (mkGame 3 1 [0]).cells 1 2 = 0 ∧
      get2 0 (mkGame 3 1 [0]).cells 2 0 = 0 ∧
      get2 0 (mkGame 3 1 [0]).cells 2 1 = 0 ∧
      get2 0 (mkGame 3 1 [0]).cells 2 2 = 0) := by
  obtain ⟨hnd, hlen, hbd⟩ := hsamp
  have hbd' : ∀ c ∈ coords, c < s * s := by
    intro c hc
    have := hbd c hc
    omega
  have hpos : 0 < s := hs
  refine ⟨?_, ?_, ?_, ?_, ?_⟩
  · rw [mkGame_mines, List.length_map, hlen]
  · rw [mkGame_mines]
    exact hnd.map (coord_pair_injective s)
  · rw [mkGame_mines]
    intro m hm
    rw [List.mem_map] at hm
    obtain ⟨c, hc, hfc⟩ := hm
    rw [← hfc]
    exact ⟨(Nat.div_lt_iff_lt_mul hpos).mpr (hbd' c hc), Nat.mod_lt _ hpos⟩
  · intro i j hi hj hnotm
    exact mkGame_cells_not_mine s nm coords hbd' i j hi hj hnotm
  · decide

theorem C1_adjacency_counts_witness :
    (1 ≤ 3 ∧ SampleOK (3 * 3) 1 [0]) ∧ (mkGame 3 1 [0]).mines.length = 1 :=
  ⟨⟨by decide, by decide⟩, (C1_adjacency_counts 3 1 [0] (by decide) (by decide)).1⟩

/-- C2: the claim says the mine sentinel is 9 and strictly above every
non-mine value; the code instead stores `MAX_ADJACENCIES = 8` in mine cells
(contradicting the class docstring, which says 9 marks a mine), and on a
4-by-4 board whose 8 mines surround cell `(1,1)` that non-mine cell also
holds 8, equal to the mine value. -/
theorem C2_sentinel_is_8_and_collides :
    SampleOK (4 * 4) 8 [0, 1, 2, 4, 6, 8, 9, 10] ∧
    (0, 0) ∈ (mkGame 4 8 [0, 1, 2, 4, 6, 8, 9, 10]).mines ∧
    get2 0 (mkGame 4 8 [0, 1, 2, 4, 6, 8, 9, 10]).cells 0 0 = 8 ∧
    (1, 1) ∉ (mkGame 4 8 [0, 1, 2, 4, 6, 8, 9, 10]).mines ∧
    get2 0 (mkGame 4 8 [0, 1, 2, 4, 6, 8, 9, 10]).cells 1 1 = 8 ∧
    MAX_ADJACENCIES = 8 ∧
    get2 0 (mkGame 4 8 [0, 1, 2, 4, 6, 8, 9, 10]).cells 0 0 ≠ 9 := by
  decide

/-- C3: after an accepted move on a reachable board, the reported status is
Won exactly when the move did not land on a mine and the number of revealed
cells equals `side_len * side_len - num_mines`; and on a 2-by-2 board with
one mine, revealing the three non-mine cells in any order reports Won. -/
theorem C3_won_iff (s nm : Nat) (coords : List Nat) (ms : List (Int × Int))
    (x y : Int) (_hs : 1 ≤ s) (_hnm1 : 1 ≤ nm) (hnm2 : nm < s * s)
    (hbnd : 0 ≤ x ∧ x < (s : Int) ∧ 0 ≤ y ∧ y < (s : Int)) :
    (((playMoves (mkGame s nm coords) ms).step x y).status = GameStatus.Won ↔
      (mineAt (playMoves (mkGame s nm coords) ms) (x, y) = false ∧
        revealedCount ((playMoves (mkGame s nm coords) ms).step x y)
          = s * s - nm)) ∧
    (∀ c, c < 3 → ∀ ms2, ms2.Perm (nonMineMoves c) →
      (playMoves (mkGame 2 1 [c]) ms2).status = GameStatus.Won) := by
  constructor
  · have hb : GoodState (playMoves (mkGame s nm coords) ms) :=
      goodState_playMoves (goodState_mkGame s nm hnm2 coords) ms
    have hside : (playMoves (mkGame s nm coords) ms).side_len = s :=
      (playMoves_fields _ _).1
    have hnumc : (playMoves (mkGame s nm coords) ms).num_cells = s * s :=
      (playMoves_fields _ _).2.2.1
    have hnumm : (playMoves (mkGame s nm coords) ms).num_mines = nm :=
      (playMoves_fields _ _).2.1
    have hbnd' : 0 ≤ x ∧
        x < ((playMoves (mkGame s nm coords) ms).side_len : Int) ∧ 0 ≤ y ∧
        y < ((playMoves (mkGame s nm coords) ms).side_len : Int) := by
      rw [hside]
      exact hbnd
    have hct : ((playMoves (mkGame s nm coords) ms).step x y).move_ct
        = revealedCount ((playMoves (mkGame s nm coords) ms).step x y) :=
      (goodState_step hb x y).2.2.1
    rw [status_step hbnd']
    constructor
    · intro hw
      by_cases hmine : mineAt (playMoves (mkGame s nm coords) ms) (x, y) = true
      · rw [if_pos hmine] at hw
        exact GameStatus.noConfusion hw
      · rw [if_neg hmine] at hw
        refine ⟨bool_eq_false_of_ne_true hmine, ?_⟩
        split_ifs at hw with hc
        all_goals rw [← hct, hc, hnumc, hnumm]
    · rintro ⟨hmine, hrc⟩
      rw [if_neg (by rw [hmine]; exact fun hc => Bool.noConfusion hc)]
      rw [if_pos (by rw [hct, hrc, hnumc, hnumm])]
  · intro c hc ms2 hperm
    have hmem : ms2 ∈ (nonMineMoves c).permutations' :=
      List.mem_permutations'.mpr hperm
    clear hperm
    revert hmem
    revert ms2
    interval_cases c
    · decide
    · decide
    · decide

theorem C3_won_iff_witness :
    ((playMoves (mkGame 2 1 [0]) [((0 : Int), (1 : Int)), ((1 : Int), (0 : Int))]).step
        1 1).status = GameStatus.Won ↔
      (mineAt (playMoves (mkGame 2 1 [0]) [((0 : Int), (1 : Int)), ((1 : Int), (0 : Int))])
          (1, 1) = false ∧
        revealedCount ((playMoves (mkGame 2 1 [0])
            [((0 : Int), (1 : Int)), ((1 : Int), (0 : Int))]).step 1 1) = 2 * 2 - 1) :=
  (C3_won_iff 2 1 [0] [((0 : Int), (1 : Int)), ((1 : Int), (0 : Int))] 1 1
    (by decide) (by decide) (by decide) (by decide)).1

/-- C4: after an accepted move the reported status is Lost exactly when the
move's coordinates are a mine cell, regardless of the earlier history; in
particular re-issuing a move on an already revealed mine reports Lost
again. -/
theorem C4_lost_iff_mine (b : Board) (x y : Int)
    (hbnd : 0 ≤ x ∧ x < (b.side_len : Int) ∧ 0 ≤ y ∧ y < (b.side_len : Int)) :
    ((b.step x y).status = GameStatus.Lost ↔ mineAt b (x, y) = true) ∧
    (get2 false b.moves x.toNat y.toNat = true → mineAt b (x, y) = true →
      (b.step x y).status = GameStatus.Lost) := by
  have hs := status_step hbnd
  constructor
  · rw [hs]
    by_cases hmine : mineAt b (x, y) = true
    · rw [if_pos hmine]
      constructor
      · intro _
        exact hmine
      · intro _
        rfl
    · rw [if_neg hmine]
      constructor
      · intro hw
        split_ifs at hw
      · intro hm
        exact absurd hm hmine
  · intro _ hmine
    rw [hs, if_pos hmine]

theorem C4_lost_iff_mine_witness :
    (0 ≤ (0 : Int) ∧ (0 : Int) < ((mkGame 2 1 [0]).side_len : Int) ∧
      0 ≤ (0 : Int) ∧ (0 : Int) < ((mkGame 2 1 [0]).side_len : Int)) ∧
    (((mkGame 2 1 [0]).step 0 0).status = GameStatus.Lost ↔
      mineAt (mkGame 2 1 [0]) (0, 0) = true) :=
  ⟨by decide, (C4_lost_iff_mine (mkGame 2 1 [0]) 0 0 (by decide)).1⟩

/-- C5: the construction path rejects exactly the configurations with
`side_len < 1`, `num_mines < 1` or `num_mines ≥ side_len²` with
InvalidConfig, producing no engine; in particular `(0,1)`, `(3,0)` and
`(3,9)` are all rejected. -/
theorem C5_invalid_config (s n : Nat) (coords : List Nat) :
    ((∃ e, Construct s n coords = Except.error e) ↔
      (s < 1 ∨ n < 1 ∨ n ≥ s * s)) ∧
    Construct 0 1 coords = Except.error ConfigError.InvalidConfig ∧
    Construct 3 0 coords = Except.error ConfigError.InvalidConfig ∧
    Construct 3 9 coords = Except.error ConfigError.InvalidConfig := by
  refine ⟨?_, rfl, rfl, rfl⟩
  unfold Construct
  split_ifs with h1 h2
  · constructor
    · intro _
      rcases h1 with h | h
      · exact Or.inl h
      · exact Or.inr (Or.inl h)
    · intro _
      exact ⟨ConfigError.InvalidConfig, rfl⟩
  · constructor
    · intro _
      exact Or.inr (Or.inr h2)
    · intro _
      exact ⟨ConfigError.InvalidConfig, rfl⟩
  · constructor
    · rintro ⟨e, he⟩
      exact he.elim
    · intro hcond
      rcases hcond with h | h | h
      · exact absurd (Or.inl h) h1
      · exact absurd (Or.inr h) h1
      · exact absurd h h2

/-- C6: a candidate move outside `[0, side_len)` in either coordinate is
rejected with OutOfBounds and the engine state is unchanged; in particular
row `-1` and row `side_len` are both rejected. -/
theorem C6_out_of_bounds (b : Board) (x y : Int) :
    (¬(0 ≤ x ∧ x < (b.side_len : Int) ∧ 0 ≤ y ∧ y < (b.side_len : Int)) →
      b.apply_move x y = Except.error MoveError.OutOfBounds ∧ b.step x y = b) ∧
    b.apply_move (-1) 0 = Except.error MoveError.OutOfBounds ∧
    b.apply_move (b.side_len : Int) 0 = Except.error MoveError.OutOfBounds := by
  refine ⟨?_, ?_, ?_⟩
  · intro h
    exact ⟨apply_move_oob h, step_oob h⟩
  · apply apply_move_oob
    intro hc
    exact absurd hc.1 (by decide)
  · apply apply_move_oob
    intro hc
    have h2 := hc.2.1
    omega

theorem C6_out_of_bounds_witness :
    ¬(0 ≤ (-1 : Int) ∧ (-1 : Int) < ((mkGame 2 1 [0]).side_len : Int) ∧
        0 ≤ (0 : Int) ∧ (0 : Int) < ((mkGame 2 1 [0]).side_len : Int)) ∧
    ((mkGame 2 1 [0]).apply_move (-1) 0 = Except.error MoveError.OutOfBounds ∧
      (mkGame 2 1 [0]).step (-1) 0 = mkGame 2 1 [0]) :=
  ⟨by decide, (C6_out_of_bounds (mkGame 2 1 [0]) (-1) 0).1 (by decide)⟩

/-- C7: on a reachable board, a move on an already revealed in-bounds cell
changes nothing but the recorded last move and leaves the move count alone;
a pair of moves on the same fresh cell raises the count by exactly 1, and on
a fresh board any in-bounds cell moved on twice yields move count 1. -/
theorem C7_idempotent_moves (s nm : Nat) (coords : List Nat)
    (ms : List (Int × Int)) (x y : Int) (hnm2 : nm < s * s)
    (hbnd : 0 ≤ x ∧ x < (s : Int) ∧ 0 ≤ y ∧ y < (s : Int)) :
    (get2 false (playMoves (mkGame s nm coords) ms).moves x.toNat y.toNat = true →
      (playMoves (mkGame s nm coords) ms).step x y
        = { playMoves (mkGame s nm coords) ms with last_move := (x, y) }) ∧
    (get2 false (playMoves (mkGame s nm coords) ms).moves x.toNat y.toNat = false →
      (((playMoves (mkGame s nm coords) ms).step x y).step x y).move_ct
        = (playMoves (mkGame s nm coords) ms).move_ct + 1) ∧
    (((mkGame s nm coords).step x y).step x y).move_ct = 1 := by
  have hb : GoodState (playMoves (mkGame s nm coords) ms) :=
    goodState_playMoves (goodState_mkGame s nm hnm2 coords) ms
  have hside : (playMoves (mkGame s nm coords) ms).side_len = s :=
    (playMoves_fields _ _).1
  have hbnd' : 0 ≤ x ∧
      x < ((playMoves (mkGame s nm coords) ms).side_len : Int) ∧ 0 ≤ y ∧
      y < ((playMoves (mkGame s nm coords) ms).side_len : Int) := by
    rw [hside]
    exact hbnd
  refine ⟨?_, ?_, ?_⟩
  · intro hm
    exact step_on_revealed hb hbnd' hm
  · intro hm
    exact step_twice_fresh hb.1 hb.2.1 hbnd' hm
  · have hb0 : GoodState (mkGame s nm coords) := goodState_mkGame s nm hnm2 coords
    have hm0 : get2 false (mkGame s nm coords).moves x.toNat y.toNat = false :=
      get2_replicate false s s x.toNat y.toNat
    have hbnd0 : 0 ≤ x ∧ x < ((mkGame s nm coords).side_len : Int) ∧ 0 ≤ y ∧
        y < ((mkGame s nm coords).side_len : Int) := hbnd
    exact step_twice_fresh hb0.1 hb0.2.1 hbnd0 hm0

theorem C7_idempotent_moves_witness :
    (1 < 2 * 2 ∧ (0 ≤ (0 : Int) ∧ (0 : Int) < (2 : Int) ∧ 0 ≤ (1 : Int) ∧
      (1 : Int) < (2 : Int))) ∧
    (((mkGame 2 1 [0]).step 0 1).step 0 1).move_ct = 1 :=
  ⟨⟨by decide, by decide⟩,
    (C7_idempotent_moves 2 1 [0] [] 0 1 (by decide) (by decide)).2.2⟩

/-- C8 counterexample: the three-valued status reported after each move is
not absorbing; on a 2-by-2 board with its mine at `(0,0)`, the move `(0,0)`
reports Lost but the further move `(0,1)` reports InProgress again. -/
theorem C8_status_not_absorbing :
    (playMoves (mkGame 2 1 [0]) [((0 : Int), (0 : Int))]).status
      = GameStatus.Lost ∧
    (playMoves (mkGame 2 1 [0])
        [((0 : Int), (0 : Int)), ((0 : Int), (1 : Int))]).status
      = GameStatus.InProgress := by
  decide

/-- C8 (amended): the stored game-over flag is absorbing: the move that first
reports Won or Lost sets it, and no later sequence of moves ever clears it —
`check_state` stays true — but the per-move status classification itself is
re-derived from the most recent move only. -/
theorem C8_game_over_absorbing (b : Board) (ms : List (Int × Int)) (x y : Int)
    (hbnd : 0 ≤ x ∧ x < (b.side_len : Int) ∧ 0 ≤ y ∧ y < (b.side_len : Int)) :
    (b.check_state = true → (playMoves b ms).check_state = true) ∧
    ((b.step x y).status ≠ GameStatus.InProgress →
      (b.step x y).check_state = true) := by
  constructor
  · intro h
    exact playMoves_game_over_mono h ms
  · intro hst
    by_cases hm : get2 false b.moves x.toNat y.toNat = false
    · rw [step_fresh hbnd hm] at hst ⊢
      rw [status_draw_board] at hst
      unfold Board.status at hst
      split_ifs at hst with h1 h2
      · exact draw_board_game_over_of_lost h1
      · exact draw_board_game_over_of_won h2
      · exact absurd rfl hst
    · rw [step_seen hbnd (bool_eq_true_of_ne_false hm)] at hst ⊢
      rw [status_draw_board] at hst
      unfold Board.status at hst
      split_ifs at hst with h1 h2
      · exact draw_board_game_over_of_lost h1
      · exact draw_board_game_over_of_won h2
      · exact absurd rfl hst

theorem C8_game_over_absorbing_witness :
    (0 ≤ (0 : Int) ∧ (0 : Int) < ((mkGame 2 1 [0]).side_len : Int) ∧
      0 ≤ (0 : Int) ∧ (0 : Int) < ((mkGame 2 1 [0]).side_len : Int)) ∧
    (((mkGame 2 1 [0]).step 0 0).status ≠ GameStatus.InProgress →
      ((mkGame 2 1 [0]).step 0 0).check_state = true) :=
  ⟨by decide, (C8_game_over_absorbing (mkGame 2 1 [0]) [] 0 0 (by decide)).2⟩

/-- C9: the claim says every one of the `side_len²` cells is eligible as a
mine; the code samples from `range(0, num_cells - 1)`, so the last linear
cell `(side_len-1, side_len-1)` can never be a mine, whatever the sample. -/
theorem C9_last_cell_never_mine (s nm : Nat) (coords : List Nat) (hs : 1 ≤ s)
    (hbd : ∀ c ∈ coords, c < s * s - 1) :
    (s - 1, s - 1) ∉ (mkGame s nm coords).mines := by
  rw [mkGame_mines, List.mem_map]
  rintro ⟨c, hc, hfc⟩
  rw [Prod.mk.injEq] at hfc
  have hmod := Nat.div_add_mod c s
  have hlt := hbd c hc
  rw [hfc.1, hfc.2] at hmod
  have hss : s * s = s * (s - 1) + s := by
    calc s * s = s * ((s - 1) + 1) := by rw [Nat.sub_add_cancel hs]
    _ = s * (s - 1) + s := by rw [Nat.mul_succ]
  have h2 : c + 1 = s * s := by
    rw [hss, ← hmod, Nat.add_assoc, Nat.sub_add_cancel hs]
  rw [← h2, Nat.add_sub_cancel] at hlt
  exact absurd hlt (Nat.lt_irrefl c)

theorem C9_last_cell_never_mine_witness :
    (1 ≤ 2 ∧ ∀ c ∈ ([2] : List Nat), c < 2 * 2 - 1) ∧
    (1, 1) ∉ (mkGame 2 1 [2]).mines :=
  ⟨⟨by decide, by decide⟩, C9_last_cell_never_mine 2 1 [2] (by decide) (by decide)⟩

/-- C10: in every state reachable from construction, the move count equals
the number of revealed cells, is bounded by `side_len²`, and never decreases
under a further move. -/
theorem C10_move_count_invariant (s nm : Nat) (coords : List Nat)
    (ms : List (Int × Int)) (hnm2 : nm < s * s) :
    (playMoves (mkGame s nm coords) ms).move_ct
        = revealedCount (playMoves (mkGame s nm coords) ms) ∧
    (playMoves (mkGame s nm coords) ms).move_ct ≤ s * s ∧
    (∀ x y : Int, (playMoves (mkGame s nm coords) ms).move_ct
        ≤ ((playMoves (mkGame s nm coords) ms).step x y).move_ct) := by
  have hb : GoodState (playMoves (mkGame s nm coords) ms) :=
    goodState_playMoves (goodState_mkGame s nm hnm2 coords) ms
  have hside : (playMoves (mkGame s nm coords) ms).side_len = s :=
    (playMoves_fields _ _).1
  refine ⟨hb.2.2.1, ?_, ?_⟩
  · rw [hb.2.2.1]
    unfold revealedCount
    rw [hside]
    exact revealedCountAux_le s _
  · intro x y
    exact (step_fields _ x y).2.2.2.2.2

theorem C10_move_count_invariant_witness :
    (1 < 2 * 2) ∧
    (mkGame 2 1 [0]).move_ct = revealedCount (mkGame 2 1 [0]) :=
  ⟨by decide, (C10_move_count_invariant 2 1 [0] [] (by decide)).1⟩

end Pynesweeper
